import Mathlib

/-!
Shallow embedding of src/src/meet_server.py (BlackRoad Meet, class MeetServer).

Modelling conventions:
* Python dicts (`self.rooms`, `self.participants`) are association lists
  `List (String × _)`; assignment `d[k] = v` replaces the first binding of `k`
  in place (Python dicts keep the original insertion position on overwrite) or
  appends a fresh binding at the end; `k in d` and `d[k]` use `dictGet`.
* The sqlite tables `rooms` and `participants` are lists of row structures
  (`db_rooms`, `db_participants`); INSERT appends, UPDATE maps over rows.
* `datetime.now()` and `uuid4` results are passed in as explicit parameters
  (timestamps as integer seconds `Int`; ISO-8601 strings order-isomorphically
  to their timestamps, so sorting by timestamp models sorting by the string).
* `int((ended - created).total_seconds() / 60)` truncates toward zero, which
  on integer second counts is `Int.tdiv _ 60`.
* `Participant` is declared as a non-frozen `@dataclass` with default `eq`,
  so Python sets `__hash__` to `None` and the object is unhashable.
  Consequently `self.participants[room_id].add(participant)` in `join_room`
  (line 147) raises `TypeError: unhashable type: 'Participant'`; the set is
  left unchanged (the hash is computed before any mutation), the earlier
  `room.participants.append(user)` (line 146) has already happened, and the
  DB insert and `return True` after it are never reached.  Operations that
  can raise return a `PyOutcome` (`ret b` for a normal boolean return,
  `exn` for a propagated TypeError) together with the state as it is when
  control leaves the method.
-/

/-- Result of calling a Python method that either returns a bool or lets a
TypeError propagate to the caller. -/
inductive PyOutcome where
  | ret : Bool → PyOutcome
  | exn : PyOutcome
deriving DecidableEq, Repr

/-- In-memory `Room` dataclass (meet_server.py lines 13-24). -/
structure Room where
  id : String
  name : String
  host : String
  participants : List String
  max_size : Nat
  status : String
  created_at : Int
  ended_at : Option Int := none
  recording_url : String := ""
deriving DecidableEq, Repr

/-- In-memory `Participant` dataclass (meet_server.py lines 27-36). -/
structure Participant where
  id : String
  room_id : String
  user : String
  joined_at : Int
  left_at : Option Int := none
  camera_on : Bool := true
  mic_on : Bool := true
deriving DecidableEq, Repr

/-- Row of the sqlite `rooms` table (meet_server.py lines 57-68). -/
structure RoomRow where
  id : String
  name : String
  host : String
  max_size : Nat
  status : String
  created_at : Int
  ended_at : Option Int
  recording_url : String
deriving DecidableEq, Repr

/-- Row of the sqlite `participants` table (meet_server.py lines 70-81). -/
structure SessionRow where
  id : String
  room_id : String
  user : String
  joined_at : Int
  left_at : Option Int
  camera_on : Bool
  mic_on : Bool
deriving DecidableEq, Repr

/-- The whole state of a `MeetServer` instance: the two in-memory dicts and
the two durable sqlite tables. -/
structure MeetServer where
  rooms : List (String × Room)
  participants : List (String × List Participant)
  db_rooms : List RoomRow
  db_participants : List SessionRow
deriving DecidableEq, Repr

/-- State right after `MeetServer.__init__` on a fresh database. -/
def MeetServer.init : MeetServer := ⟨[], [], [], []⟩

/-- Python dict read `d[k]` / membership `k in d`: the value bound to `k`,
if any (the API keeps keys distinct, so the first binding is the binding). -/
def dictGet (k : String) : List (String × α) → Option α
  | [] => none
  | (k', v) :: rest => if k' = k then some v else dictGet k rest

/-- Python dict assignment `d[k] = v`: replace the first binding of `k`
keeping its position, else append a new binding. -/
def dictInsert (k : String) (v : α) : List (String × α) → List (String × α)
  | [] => [(k, v)]
  | (k', v') :: rest =>
    if k' = k then (k, v) :: rest else (k', v') :: dictInsert k v rest

/-- In-place mutation of the value stored under `k` (the Python code mutates
`self.rooms[room_id]` through an alias): rewrite the first binding of `k`. -/
def dictUpdate (k : String) (f : α → α) : List (String × α) → List (String × α)
  | [] => []
  | (k', v) :: rest =>
    if k' = k then (k', f v) :: rest else (k', v) :: dictUpdate k f rest

/-- Python `list.remove(x)`: drop the first occurrence of `x` (callers guard
membership, so the ValueError branch is unreachable). -/
def removeFirst (u : String) : List String → List String
  | [] => []
  | x :: xs => if x = u then xs else x :: removeFirst u xs

/-- The loop body of `toggle_media` (lines 190-196): find the first
participant object whose `user` matches, update the flags that were provided,
and stop; `none` when no object matches (the loop falls through). -/
def toggleFirst (user : String) (camera mic : Option Bool) :
    List Participant → Option (List Participant)
  | [] => none
  | p :: ps =>
    if p.user = user then
      some ({ p with camera_on := camera.getD p.camera_on,
                     mic_on := mic.getD p.mic_on } :: ps)
    else
      match toggleFirst user camera mic ps with
      | none => none
      | some ps' => some (p :: ps')

/-- The in-place mutation `room.participants.append(user)` of join_room
line 146, as a function on the aliased room. -/
def appendUser (user : String) (r : Room) : Room :=
  { r with participants := r.participants ++ [user] }

/-- The in-place mutation `room.participants.remove(user)` of leave_room
line 170. -/
def dropUser (user : String) (r : Room) : Room :=
  { r with participants := removeFirst user r.participants }

/-- The in-place mutations of end_room lines 206-208. -/
def endUpd (url : String) (t : Int) (r : Room) : Room :=
  { r with status := "ended", ended_at := some t, recording_url := url }

/-- The effect of leave_room's UPDATE (lines 176-179) on one `participants`
row: stamp `left_at` when the row matches the room and user and is open. -/
def stampRow (rid user : String) (t : Int) (p : SessionRow) : SessionRow :=
  if p.room_id = rid ∧ p.user = user ∧ p.left_at = none then
    { p with left_at := some t }
  else p

/-- The effect of end_room's UPDATE (lines 213-216) on one `rooms` row. -/
def endRow (rid url : String) (t : Int) (row : RoomRow) : RoomRow :=
  if row.id = rid then
    { row with status := "ended", ended_at := some t, recording_url := url }
  else row

/-- `MeetServer.create_room` (lines 86-119).  The generated uuid `rid` and
`datetime.now()` value `t` are parameters.  Returns `(room_id, join_url)`. -/
def create_room (name host : String) (max_size : Nat) (rid : String) (t : Int)
    (s : MeetServer) : (String × String) × MeetServer :=
  let room : Room :=
    { id := rid, name := name, host := host, participants := [],
      max_size := max_size, status := "active", created_at := t }
  let row : RoomRow :=
    { id := rid, name := name, host := host, max_size := max_size,
      status := "active", created_at := t, ended_at := none,
      recording_url := "" }
  ((rid, "https://meet.blackroad.io/r/" ++ rid),
   { s with rooms := dictInsert rid room s.rooms,
            participants := dictInsert rid [] s.participants,
            db_rooms := s.db_rooms ++ [row] })

/-- `MeetServer.join_room` (lines 121-159).  `pid` is the generated
participant uuid and `t` is `datetime.now()`.  After the room and capacity
checks the user is appended to `room.participants` (line 146); the following
`self.participants[room_id].add(participant)` (line 147) raises TypeError
because the non-frozen dataclass `Participant` is unhashable, so the DB
insert and the final `return True` are unreachable: the call propagates the
exception, leaving the appended list behind and everything else untouched. -/
def join_room (rid user pid : String) (t : Int) (s : MeetServer) :
    PyOutcome × MeetServer :=
  match dictGet rid s.rooms with
  | none => (.ret false, s)
  | some room =>
    if room.max_size ≤ room.participants.length then
      (.ret false, s)
    else
      let _participant : Participant :=
        { id := pid, room_id := rid, user := user, joined_at := t }
      (.exn, { s with rooms := dictUpdate rid (appendUser user) s.rooms })

/-- `MeetServer.leave_room` (lines 161-183).  `t` is `datetime.now()`.
On success the first occurrence of `user` is removed from the room's list and
every `participants` row for that room and user with NULL `left_at` gets
`left_at` stamped. -/
def leave_room (rid user : String) (t : Int) (s : MeetServer) :
    Bool × MeetServer :=
  match dictGet rid s.rooms with
  | none => (false, s)
  | some room =>
    if user ∈ room.participants then
      (true,
       { s with rooms := dictUpdate rid (dropUser user) s.rooms,
                db_participants := s.db_participants.map (stampRow rid user t) })
    else (false, s)

/-- `MeetServer.toggle_media` (lines 185-198).  Iterates over
`self.participants.get(room_id, set())` and updates the first object whose
`user` matches; touches neither the rooms dict nor the durable store. -/
def toggle_media (rid user : String) (camera mic : Option Bool)
    (s : MeetServer) : Bool × MeetServer :=
  match dictGet rid s.rooms with
  | none => (false, s)
  | some _ =>
    match toggleFirst user camera mic ((dictGet rid s.participants).getD []) with
    | none => (false, s)
    | some ps' => (true, { s with participants := dictInsert rid ps' s.participants })

/-- `MeetServer.end_room` (lines 200-220).  `t` is `datetime.now()`. -/
def end_room (rid url : String) (t : Int) (s : MeetServer) :
    Bool × MeetServer :=
  match dictGet rid s.rooms with
  | none => (false, s)
  | some _ =>
    (true,
     { s with rooms := dictUpdate rid (endUpd url t) s.rooms,
              db_rooms := s.db_rooms.map (endRow rid url t) })

/-- The dict returned by `get_room` (lines 232-243). -/
structure RoomView where
  id : String
  name : String
  host : String
  participants : List String
  max_size : Nat
  status : String
  created_at : Int
  ended_at : Option Int
  recording_url : String
  duration_minutes : Option Int
deriving DecidableEq, Repr

/-- The dict built by `get_room` for one room (lines 227-243):
`duration_minutes` is `int(elapsed_seconds / 60)` (truncation toward zero)
when `ended_at` is set, else None (`datetime` objects are always truthy, so
line 229's truthiness test is exactly the None test). -/
def roomView (room : Room) : RoomView :=
  { id := room.id, name := room.name, host := room.host,
    participants := room.participants, max_size := room.max_size,
    status := room.status, created_at := room.created_at,
    ended_at := room.ended_at, recording_url := room.recording_url,
    duration_minutes :=
      room.ended_at.map fun e => (e - room.created_at).tdiv 60 }

/-- `MeetServer.get_room` (lines 222-243). -/
def get_room (rid : String) (s : MeetServer) : Option RoomView :=
  (dictGet rid s.rooms).map roomView

/-- `MeetServer.get_active_rooms` (lines 245-248). -/
def get_active_rooms (s : MeetServer) : List (Option RoomView) :=
  (s.rooms.filter fun kr => kr.2.status = "active").map fun kr =>
    get_room kr.1 s

/-- `MeetServer.get_user_history` (lines 250-256): snapshots of rooms with
status `ended` whose participant list still holds `user`, sorted by
`created_at` descending (Python sorts the ISO strings, which order exactly as
the timestamps), truncated to `n`.  For states built through this API the
inner `get_room room.id` lookup always succeeds because every dict key equals
its room's `id` field, so collecting with `filterMap` is faithful. -/
def get_user_history (user : String) (n : Nat) (s : MeetServer) :
    List RoomView :=
  ((((s.rooms.map Prod.snd).filterMap fun room =>
      if user ∈ room.participants ∧ room.status = "ended" then
        get_room room.id s
      else none).mergeSort fun a b => b.created_at ≤ a.created_at).take n)

/-- The dict returned by `room_stats` (lines 278-282). -/
structure RoomStatsView where
  peak_participants : Nat
  duration_min : Int
  join_events : Nat
deriving DecidableEq, Repr

/-- `MeetServer.room_stats` (lines 258-282).  `join_events` is
`SELECT COUNT(*) FROM participants WHERE room_id = ?`. -/
def room_stats (rid : String) (s : MeetServer) : Option RoomStatsView :=
  (dictGet rid s.rooms).map fun room =>
    { peak_participants := room.participants.length,
      duration_min :=
        (room.ended_at.map fun e => (e - room.created_at).tdiv 60).getD 0,
      join_events :=
        (s.db_participants.filter fun p => p.room_id = rid).length }

/-- One call against the server, with the uuid and clock oracle values it
consumed recorded as arguments. -/
inductive Op where
  | create (name host : String) (max_size : Nat) (rid : String) (t : Int)
  | join (rid user pid : String) (t : Int)
  | leave (rid user : String) (t : Int)
  | toggle (rid user : String) (camera mic : Option Bool)
  | endRoom (rid url : String) (t : Int)
deriving DecidableEq, Repr

/-- The state after one call.  A call that raises (join_room hitting the
unhashable-Participant TypeError) still leaves its partial mutation behind:
the server object survives in the state `join_room` returns alongside
`.exn`. -/
def applyOp (op : Op) (s : MeetServer) : MeetServer :=
  match op with
  | .create name host max_size rid t => (create_room name host max_size rid t s).2
  | .join rid user pid t => (join_room rid user pid t s).2
  | .leave rid user t => (leave_room rid user t s).2
  | .toggle rid user camera mic => (toggle_media rid user camera mic s).2
  | .endRoom rid url t => (end_room rid url t s).2

/-- Run a sequence of calls from a start state. -/
def run (ops : List Op) (s : MeetServer) : MeetServer :=
  ops.foldl (fun s op => applyOp op s) s

/-- Indicator that `op`, run against `s`, is a join_room call on room `rid`
that returns `True`. -/
def joinSucc (op : Op) (s : MeetServer) (rid : String) : Nat :=
  match op with
  | .join rid' user pid t =>
    if rid' = rid ∧ (join_room rid' user pid t s).1 = .ret true then 1 else 0
  | _ => 0

/-- Number of `join_room` calls in `ops` (run from `s`) that target room
`rid` and return `True`. -/
def succJoinsFrom (rid : String) : List Op → MeetServer → Nat
  | [], _ => 0
  | op :: rest, s => joinSucc op s rid + succJoinsFrom rid rest (applyOp op s)

/-- Number of rows of the durable `participants` table belonging to `rid`:
the quantity `room_stats` reports as `join_events`. -/
def dbJoinCount (rid : String) (s : MeetServer) : Nat :=
  (s.db_participants.filter fun p => p.room_id = rid).length

/-- The per-room part of the data-model invariant (spec section 3): the
participant list respects the capacity while the room is active, and the end
timestamp is present exactly for ended rooms. -/
def RoomInv (r : Room) : Prop :=
  (r.status = "active" → r.participants.length ≤ r.max_size) ∧
  (r.ended_at ≠ none ↔ r.status = "ended")

/-- Every room of the state satisfies `RoomInv`. -/
def StateInv (s : MeetServer) : Prop := ∀ kr ∈ s.rooms, RoomInv kr.2

/-- Structural well-formedness of the rooms dict, maintained by the API:
every binding maps a key to the room carrying that key as its `id`, and keys
are distinct (uuids; `dictInsert` never duplicates a key). -/
def RoomsWF (s : MeetServer) : Prop :=
  (∀ kr ∈ s.rooms, kr.2.id = kr.1) ∧ (s.rooms.map Prod.fst).Nodup

/-! ### Lemmas about the dictionary model -/

theorem dictGet_dictInsert_self (k : String) (v : α) :
    ∀ l : List (String × α), dictGet k (dictInsert k v l) = some v := by
  intro l
  induction l with
  | nil => simp [dictInsert, dictGet]
  | cons hd tl ih =>
    obtain ⟨k', v'⟩ := hd
    by_cases h : k' = k <;> simp [dictInsert, dictGet, h, ih]

theorem mem_dictInsert {k k' : String} {v v' : α} :
    ∀ {l : List (String × α)}, (k, v) ∈ dictInsert k' v' l →
      (k = k' ∧ v = v') ∨ (k, v) ∈ l := by
  intro l
  induction l with
  | nil =>
    intro h
    simp [dictInsert] at h
    exact Or.inl h
  | cons hd tl ih =>
    obtain ⟨a, b⟩ := hd
    intro h
    by_cases hak : a = k'
    · simp only [dictInsert, if_pos hak] at h
      rcases List.mem_cons.mp h with heq | h
      · have hk : k = k' := congrArg Prod.fst heq
        have hv : v = v' := congrArg Prod.snd heq
        exact Or.inl ⟨hk, hv⟩
      · exact Or.inr (List.mem_cons_of_mem _ h)
    · simp only [dictInsert, if_neg hak] at h
      rcases List.mem_cons.mp h with heq | h
      · exact Or.inr (by simp [heq])
      · rcases ih h with h' | h'
        · exact Or.inl h'
        · exact Or.inr (List.mem_cons_of_mem _ h')

theorem dictGet_dictUpdate_self (k : String) (f : α → α) :
    ∀ l : List (String × α),
      dictGet k (dictUpdate k f l) = (dictGet k l).map f := by
  intro l
  induction l with
  | nil => simp [dictUpdate, dictGet]
  | cons hd tl ih =>
    obtain ⟨k', v⟩ := hd
    by_cases h : k' = k <;> simp [dictUpdate, dictGet, h, ih]

theorem dictGet_dictUpdate_ne {k k' : String} (f : α → α) (hne : k' ≠ k) :
    ∀ l : List (String × α), dictGet k (dictUpdate k' f l) = dictGet k l := by
  intro l
  induction l with
  | nil => simp [dictUpdate]
  | cons hd tl ih =>
    obtain ⟨a, b⟩ := hd
    by_cases hak : a = k'
    · subst hak
      simp [dictUpdate, dictGet, hne, ih]
    · by_cases hk : a = k
      · subst hk
        simp [dictUpdate, dictGet, hak]
      · simp [dictUpdate, dictGet, hak, hk, ih]

theorem mem_dictUpdate {k k' : String} {v : α} {f : α → α} :
    ∀ {l : List (String × α)}, (k, v) ∈ dictUpdate k' f l →
      (k, v) ∈ l ∨ (k = k' ∧ ∃ v₀, dictGet k' l = some v₀ ∧ v = f v₀) := by
  intro l
  induction l with
  | nil => intro h; simp [dictUpdate] at h
  | cons hd tl ih =>
    obtain ⟨a, b⟩ := hd
    intro h
    by_cases hak : a = k'
    · subst hak
      simp only [dictUpdate, if_pos rfl] at h
      rcases List.mem_cons.mp h with heq | h
      · have hk : k = a := congrArg Prod.fst heq
        have hv : v = f b := congrArg Prod.snd heq
        exact Or.inr ⟨hk, b, by simp [dictGet], hv⟩
      · exact Or.inl (List.mem_cons_of_mem _ h)
    · simp only [dictUpdate, if_neg hak] at h
      rcases List.mem_cons.mp h with heq | h
      · exact Or.inl (by simp [heq])
      · rcases ih h with h' | ⟨hk, v₀, hget, hv⟩
        · exact Or.inl (List.mem_cons_of_mem _ h')
        · exact Or.inr ⟨hk, v₀, by simp [dictGet, hak, hget], hv⟩

theorem dictGet_mem {k : String} {v : α} :
    ∀ {l : List (String × α)}, dictGet k l = some v → (k, v) ∈ l := by
  intro l
  induction l with
  | nil => intro h; simp [dictGet] at h
  | cons hd tl ih =>
    obtain ⟨a, b⟩ := hd
    intro h
    by_cases hak : a = k
    · subst hak
      simp [dictGet] at h
      simp [h]
    · simp only [dictGet, if_neg hak] at h
      exact List.mem_cons_of_mem _ (ih h)

theorem keys_dictUpdate (k : String) (f : α → α) :
    ∀ l : List (String × α),
      (dictUpdate k f l).map Prod.fst = l.map Prod.fst := by
  intro l
  induction l with
  | nil => simp [dictUpdate]
  | cons hd tl ih =>
    obtain ⟨a, b⟩ := hd
    by_cases hak : a = k <;> simp [dictUpdate, hak, ih]

theorem nodupKeys_mem_dictGet {k : String} {v : α} :
    ∀ {l : List (String × α)}, (l.map Prod.fst).Nodup → (k, v) ∈ l →
      dictGet k l = some v := by
  intro l
  induction l with
  | nil => intro _ h; simp at h
  | cons hd tl ih =>
    obtain ⟨a, b⟩ := hd
    intro hnd hmem
    rw [List.map_cons, List.nodup_cons] at hnd
    rcases List.mem_cons.mp hmem with heq | hmem
    · have hk : k = a := congrArg Prod.fst heq
      have hv : v = b := congrArg Prod.snd heq
      simp [dictGet, hk, hv]
    · have hak : a ≠ k := by
        intro hak
        subst hak
        have hmm : (a, v).fst ∈ tl.map Prod.fst :=
          List.mem_map_of_mem Prod.fst hmem
        exact hnd.1 hmm
      simp only [dictGet, if_neg hak]
      exact ih hnd.2 hmem

/-! ### Lemmas about removeFirst -/

theorem length_removeFirst_le (u : String) :
    ∀ l : List String, (removeFirst u l).length ≤ l.length := by
  intro l
  induction l with
  | nil => simp [removeFirst]
  | cons x xs ih =>
    by_cases h : x = u
    · simp only [removeFirst, if_pos h, List.length_cons]
      omega
    · simp only [removeFirst, if_neg h, List.length_cons]
      omega

theorem removeFirst_decomp {u : String} :
    ∀ {l : List String}, u ∈ l →
      ∃ pre post, l = pre ++ u :: post ∧ u ∉ pre ∧
        removeFirst u l = pre ++ post := by
  intro l
  induction l with
  | nil => intro h; simp at h
  | cons x xs ih =>
    intro hmem
    by_cases h : x = u
    · subst h
      exact ⟨[], xs, by simp [removeFirst]⟩
    · have hx : u ∈ xs := by
        rcases List.mem_cons.mp hmem with h' | h'
        · exact absurd h'.symm h
        · exact h'
      obtain ⟨pre, post, hl, hpre, hrem⟩ := ih hx
      refine ⟨x :: pre, post, by simp [hl], ?_, by simp [removeFirst, h, hrem]⟩
      simp only [List.mem_cons, not_or]
      exact ⟨fun h' => h h'.symm, hpre⟩

theorem not_mem_removeFirst_of_count_le_one {u : String} {l : List String}
    (hmem : u ∈ l) (hcount : l.count u ≤ 1) : u ∉ removeFirst u l := by
  obtain ⟨pre, post, hl, hpre, hrem⟩ := removeFirst_decomp hmem
  rw [hrem]
  intro hcontra
  have h2 : 2 ≤ l.count u := by
    subst hl
    rcases List.mem_append.mp hcontra with h | h
    · exact absurd h hpre
    · have h1 : 1 ≤ post.count u := List.count_pos_iff.mpr h
      simp only [List.count_append, List.count_cons_self]
      omega
  omega

/-! ### Case analyses of the five mutating operations -/

theorem join_room_cases (rid user pid : String) (t : Int) (s : MeetServer) :
    (dictGet rid s.rooms = none ∧ join_room rid user pid t s = (.ret false, s)) ∨
    (∃ room, dictGet rid s.rooms = some room ∧
       room.max_size ≤ room.participants.length ∧
       join_room rid user pid t s = (.ret false, s)) ∨
    (∃ room, dictGet rid s.rooms = some room ∧
       room.participants.length < room.max_size ∧
       join_room rid user pid t s =
         (.exn, { s with rooms := dictUpdate rid (appendUser user) s.rooms })) := by
  unfold join_room
  cases hro : dictGet rid s.rooms with
  | none => exact Or.inl ⟨rfl, rfl⟩
  | some room =>
    by_cases hcap : room.max_size ≤ room.participants.length
    · exact Or.inr (Or.inl ⟨room, rfl, hcap, by simp [hcap]⟩)
    · exact Or.inr (Or.inr ⟨room, rfl, by omega, by simp [hcap]⟩)

theorem leave_room_cases (rid user : String) (t : Int) (s : MeetServer) :
    (dictGet rid s.rooms = none ∧ leave_room rid user t s = (false, s)) ∨
    (∃ room, dictGet rid s.rooms = some room ∧ user ∉ room.participants ∧
       leave_room rid user t s = (false, s)) ∨
    (∃ room, dictGet rid s.rooms = some room ∧ user ∈ room.participants ∧
       leave_room rid user t s =
         (true,
          { s with rooms := dictUpdate rid (dropUser user) s.rooms,
                   db_participants := s.db_participants.map (stampRow rid user t) })) := by
  unfold leave_room
  cases hro : dictGet rid s.rooms with
  | none => exact Or.inl ⟨rfl, rfl⟩
  | some room =>
    by_cases hmem : user ∈ room.participants
    · exact Or.inr (Or.inr ⟨room, rfl, hmem, by simp [hmem]⟩)
    · exact Or.inr (Or.inl ⟨room, rfl, hmem, by simp [hmem]⟩)

theorem toggle_media_cases (rid user : String) (camera mic : Option Bool)
    (s : MeetServer) :
    (toggle_media rid user camera mic s = (false, s)) ∨
    (∃ ps', dictGet rid s.rooms ≠ none ∧
       toggleFirst user camera mic ((dictGet rid s.participants).getD []) =
         some ps' ∧
       toggle_media rid user camera mic s =
         (true, { s with participants := dictInsert rid ps' s.participants })) := by
  unfold toggle_media
  cases hro : dictGet rid s.rooms with
  | none => exact Or.inl rfl
  | some room =>
    cases htf : toggleFirst user camera mic ((dictGet rid s.participants).getD []) with
    | none => exact Or.inl (by simp [htf])
    | some ps' => exact Or.inr ⟨ps', by simp, rfl, by simp⟩

theorem end_room_cases (rid url : String) (t : Int) (s : MeetServer) :
    (dictGet rid s.rooms = none ∧ end_room rid url t s = (false, s)) ∨
    (dictGet rid s.rooms ≠ none ∧
       end_room rid url t s =
         (true,
          { s with rooms := dictUpdate rid (endUpd url t) s.rooms,
                   db_rooms := s.db_rooms.map (endRow rid url t) })) := by
  unfold end_room
  cases hro : dictGet rid s.rooms with
  | none => exact Or.inl ⟨rfl, rfl⟩
  | some room => exact Or.inr ⟨by simp, rfl⟩

/-! ### Preservation of the room invariant (claim C2) -/

theorem stateInv_applyOp (op : Op) (s : MeetServer) (h : StateInv s) :
    StateInv (applyOp op s) := by
  cases op with
  | create name host max_size rid t =>
    intro kr hkr
    obtain ⟨k, r⟩ := kr
    have hkr' : (k, r) ∈ dictInsert rid
        { id := rid, name := name, host := host, participants := [],
          max_size := max_size, status := "active", created_at := t } s.rooms := hkr
    rcases mem_dictInsert hkr' with ⟨hk, hr⟩ | hmem
    · subst hr
      refine ⟨fun _ => Nat.zero_le _, ?_⟩
      constructor
      · intro hc
        exact absurd rfl hc
      · intro hc
        exact absurd hc (show ¬(("active" : String) = "ended") by decide)
    · exact h (k, r) hmem
  | join rid user pid t =>
    intro kr hkr
    obtain ⟨k, r⟩ := kr
    rcases join_room_cases rid user pid t s with ⟨_, heq⟩ | ⟨room, _, _, heq⟩ |
      ⟨room, hro, hcap, heq⟩
    · have hs : applyOp (Op.join rid user pid t) s = s := by simp [applyOp, heq]
      exact h (k, r) (hs ▸ hkr)
    · have hs : applyOp (Op.join rid user pid t) s = s := by simp [applyOp, heq]
      exact h (k, r) (hs ▸ hkr)
    · have hkr' : (k, r) ∈ dictUpdate rid (appendUser user) s.rooms := by
        have hs : (applyOp (Op.join rid user pid t) s).rooms =
            dictUpdate rid (appendUser user) s.rooms := by simp [applyOp, heq]
        exact hs ▸ hkr
      rcases mem_dictUpdate hkr' with hmem | ⟨hk, v₀, hget, hr⟩
      · exact h (k, r) hmem
      · have hv : v₀ = room := by
          rw [hget] at hro
          exact Option.some.inj hro
        subst hv
        subst hr
        have hInvRoom := h (rid, v₀) (dictGet_mem hget)
        refine ⟨fun _ => ?_, ?_⟩
        · simp only [appendUser, List.length_append, List.length_cons,
            List.length_nil]
          omega
        · simpa [appendUser] using hInvRoom.2
  | leave rid user t =>
    intro kr hkr
    obtain ⟨k, r⟩ := kr
    rcases leave_room_cases rid user t s with ⟨_, heq⟩ | ⟨room, _, _, heq⟩ |
      ⟨room, hro, humem, heq⟩
    · have hs : applyOp (Op.leave rid user t) s = s := by simp [applyOp, heq]
      exact h (k, r) (hs ▸ hkr)
    · have hs : applyOp (Op.leave rid user t) s = s := by simp [applyOp, heq]
      exact h (k, r) (hs ▸ hkr)
    · have hkr' : (k, r) ∈ dictUpdate rid (dropUser user) s.rooms := by
        have hs : (applyOp (Op.leave rid user t) s).rooms =
            dictUpdate rid (dropUser user) s.rooms := by simp [applyOp, heq]
        exact hs ▸ hkr
      rcases mem_dictUpdate hkr' with hmem | ⟨hk, v₀, hget, hr⟩
      · exact h (k, r) hmem
      · subst hr
        have hInvRoom := h (rid, v₀) (dictGet_mem hget)
        refine ⟨fun hact => ?_, ?_⟩
        · have hle := length_removeFirst_le user v₀.participants
          have hb : v₀.participants.length ≤ v₀.max_size :=
            hInvRoom.1 (by simpa [dropUser] using hact)
          simp only [dropUser]
          omega
        · simpa [dropUser] using hInvRoom.2
  | toggle rid user camera mic =>
    have hrooms : (applyOp (Op.toggle rid user camera mic) s).rooms = s.rooms := by
      rcases toggle_media_cases rid user camera mic s with heq | ⟨ps', _, _, heq⟩ <;>
        simp [applyOp, heq]
    intro kr hkr
    exact h kr (hrooms ▸ hkr)
  | endRoom rid url t =>
    intro kr hkr
    obtain ⟨k, r⟩ := kr
    rcases end_room_cases rid url t s with ⟨_, heq⟩ | ⟨_, heq⟩
    · have hs : applyOp (Op.endRoom rid url t) s = s := by simp [applyOp, heq]
      exact h (k, r) (hs ▸ hkr)
    · have hkr' : (k, r) ∈ dictUpdate rid (endUpd url t) s.rooms := by
        have hs : (applyOp (Op.endRoom rid url t) s).rooms =
            dictUpdate rid (endUpd url t) s.rooms := by simp [applyOp, heq]
        exact hs ▸ hkr
      rcases mem_dictUpdate hkr' with hmem | ⟨hk, v₀, hget, hr⟩
      · exact h (k, r) hmem
      · subst hr
        refine ⟨fun hact => ?_, ?_⟩
        · simp [endUpd] at hact
        · simp [endUpd]

theorem stateInv_run (ops : List Op) :
    ∀ s : MeetServer, StateInv s → StateInv (run ops s) := by
  induction ops with
  | nil => exact fun s h => h
  | cons op rest ih => exact fun s h => ih _ (stateInv_applyOp op s h)

/-- C2: in every state reachable by any sequence of create_room, join_room,
leave_room, toggle_media and end_room operations from a fresh server, every
room whose status is active has at most max_size listed participants, and a
room's ended_at is non-null exactly when its status is ended.  (This holds
even though join_room raises before returning: the partial mutation it leaves
behind only appends below capacity.) -/
theorem claim_C2_invariant (ops : List Op) (k : String) (r : Room)
    (hmem : (k, r) ∈ (run ops MeetServer.init).rooms) :
    (r.status = "active" → r.participants.length ≤ r.max_size) ∧
    (r.ended_at ≠ none ↔ r.status = "ended") :=
  stateInv_run ops MeetServer.init
    (by intro kr hkr; simp [MeetServer.init] at hkr) (k, r) hmem

/-- Witness for C2 at a concrete op sequence: create a capacity-2 room, have
one (crashing) join append bob, end the room, and check the invariant on the
resulting room record. -/
theorem claim_C2_invariant_witness :
    (({ id := "r1", name := "m", host := "h", participants := ["bob"],
        max_size := 2, status := "ended", created_at := 0, ended_at := some 61,
        recording_url := "rec" } : Room).status = "active" →
      (({ id := "r1", name := "m", host := "h", participants := ["bob"],
          max_size := 2, status := "ended", created_at := 0, ended_at := some 61,
          recording_url := "rec" } : Room)).participants.length ≤
        ({ id := "r1", name := "m", host := "h", participants := ["bob"],
           max_size := 2, status := "ended", created_at := 0, ended_at := some 61,
           recording_url := "rec" } : Room).max_size) ∧
    (({ id := "r1", name := "m", host := "h", participants := ["bob"],
        max_size := 2, status := "ended", created_at := 0, ended_at := some 61,
        recording_url := "rec" } : Room).ended_at ≠ none ↔
      ({ id := "r1", name := "m", host := "h", participants := ["bob"],
         max_size := 2, status := "ended", created_at := 0, ended_at := some 61,
         recording_url := "rec" } : Room).status = "ended") :=
  claim_C2_invariant
    [Op.create "m" "h" 2 "r1" 0, Op.join "r1" "bob" "p1" 1,
     Op.endRoom "r1" "rec" 61] "r1" _ (by decide)

/-! ### Failing calls do not change the state (claim C10) -/

/-- C10: whenever join_room, leave_room, toggle_media or end_room reports
failure (returns False), the whole server state — in-memory rooms and
participants maps and both durable tables — is exactly what it was before
the call. -/
theorem claim_C10_fail_no_change (s : MeetServer) (rid user pid url : String)
    (t : Int) (camera mic : Option Bool) :
    ((join_room rid user pid t s).1 = .ret false →
      (join_room rid user pid t s).2 = s) ∧
    ((leave_room rid user t s).1 = false → (leave_room rid user t s).2 = s) ∧
    ((toggle_media rid user camera mic s).1 = false →
      (toggle_media rid user camera mic s).2 = s) ∧
    ((end_room rid url t s).1 = false → (end_room rid url t s).2 = s) := by
  refine ⟨?_, ?_, ?_, ?_⟩
  · intro hf
    rcases join_room_cases rid user pid t s with ⟨_, heq⟩ | ⟨room, _, _, heq⟩ |
      ⟨room, _, _, heq⟩
    · simp [heq]
    · simp [heq]
    · rw [heq] at hf
      simp at hf
  · intro hf
    rcases leave_room_cases rid user t s with ⟨_, heq⟩ | ⟨room, _, _, heq⟩ |
      ⟨room, _, _, heq⟩
    · simp [heq]
    · simp [heq]
    · rw [heq] at hf
      simp at hf
  · intro hf
    rcases toggle_media_cases rid user camera mic s with heq | ⟨ps', _, _, heq⟩
    · simp [heq]
    · rw [heq] at hf
      simp at hf
  · intro hf
    rcases end_room_cases rid url t s with ⟨_, heq⟩ | ⟨_, heq⟩
    · simp [heq]
    · rw [heq] at hf
      simp at hf

/-- Witness for C10: each of the four operations failing on an unknown room
id of a fresh server leaves the state equal to what it was. -/
theorem claim_C10_fail_no_change_witness :
    (join_room "r1" "bob" "p1" 0 MeetServer.init).2 = MeetServer.init ∧
    (leave_room "r1" "bob" 0 MeetServer.init).2 = MeetServer.init ∧
    (toggle_media "r1" "bob" (some false) none MeetServer.init).2 =
      MeetServer.init ∧
    (end_room "r1" "" 0 MeetServer.init).2 = MeetServer.init :=
  ⟨(claim_C10_fail_no_change MeetServer.init "r1" "bob" "p1" "" 0
      (some false) none).1 (by decide),
   (claim_C10_fail_no_change MeetServer.init "r1" "bob" "p1" "" 0
      (some false) none).2.1 (by decide),
   (claim_C10_fail_no_change MeetServer.init "r1" "bob" "p1" "" 0
      (some false) none).2.2.1 (by decide),
   (claim_C10_fail_no_change MeetServer.init "r1" "bob" "p1" "" 0
      (some false) none).2.2.2 (by decide)⟩

/-! ### get_room and durations (claim C7) -/

/-- C7: get_room is absent for an unknown id; a room with no end timestamp
reports a null duration; an ended room reports the floor of the elapsed
seconds over 60 (non-negative once the end time is not before creation); and
after a successful end_room with a clock that did not run backwards, the
reported duration is a non-negative floor division. -/
theorem claim_C7_get_room (s : MeetServer) (rid url : String) :
    (dictGet rid s.rooms = none → get_room rid s = none) ∧
    (∀ r, dictGet rid s.rooms = some r → r.ended_at = none →
       ∃ v, get_room rid s = some v ∧ v.duration_minutes = none) ∧
    (∀ r e, dictGet rid s.rooms = some r → r.ended_at = some e →
       r.created_at ≤ e →
       ∃ v, get_room rid s = some v ∧
         v.duration_minutes = some ((e - r.created_at) / 60) ∧
         0 ≤ (e - r.created_at) / 60) ∧
    (∀ r t, dictGet rid s.rooms = some r → r.created_at ≤ t →
       (end_room rid url t s).1 = true ∧
       ∃ v d, get_room rid (end_room rid url t s).2 = some v ∧
         v.duration_minutes = some d ∧ 0 ≤ d ∧ d = (t - r.created_at) / 60) := by
  refine ⟨?_, ?_, ?_, ?_⟩
  · intro h
    simp [get_room, h]
  · intro r h he
    exact ⟨roomView r, by simp [get_room, h], by simp [roomView, he]⟩
  · intro r e h he hle
    have h60 : (0 : Int) ≤ 60 := by norm_num
    have hnn : (0 : Int) ≤ e - r.created_at := sub_nonneg.mpr hle
    refine ⟨roomView r, by simp [get_room, h], ?_, Int.ediv_nonneg hnn h60⟩
    simp only [roomView]
    rw [he]
    show some ((e - r.created_at).tdiv 60) = some ((e - r.created_at) / 60)
    rw [Int.tdiv_eq_ediv hnn h60]
  · intro r t h hle
    rcases end_room_cases rid url t s with ⟨hnone, _⟩ | ⟨_, heq⟩
    · simp [h] at hnone
    · have h60 : (0 : Int) ≤ 60 := by norm_num
      have hnn : (0 : Int) ≤ t - r.created_at := sub_nonneg.mpr hle
      constructor
      · simp [heq]
      · have hget : dictGet rid (end_room rid url t s).2.rooms =
            some (endUpd url t r) := by
          rw [heq]
          simp [dictGet_dictUpdate_self, h]
        refine ⟨roomView (endUpd url t r), (t - r.created_at) / 60,
          by simp [get_room, hget], ?_, Int.ediv_nonneg hnn h60, rfl⟩
        show some ((t - r.created_at).tdiv 60) = some ((t - r.created_at) / 60)
        rw [Int.tdiv_eq_ediv hnn h60]

/-- Witness for C7: on a concrete one-room server, an unknown id is absent,
and ending the room at second 125 succeeds (125 is not before creation
time 0, so the theorem's clock hypothesis holds). -/
theorem claim_C7_get_room_witness :
    get_room "zzz" (create_room "m" "h" 2 "r1" 0 MeetServer.init).2 = none ∧
    (end_room "r1" "rec" 125
        (create_room "m" "h" 2 "r1" 0 MeetServer.init).2).1 = true :=
  ⟨(claim_C7_get_room (create_room "m" "h" 2 "r1" 0 MeetServer.init).2
      "zzz" "").1 (by decide),
   ((claim_C7_get_room (create_room "m" "h" 2 "r1" 0 MeetServer.init).2
      "r1" "rec").2.2.2
      { id := "r1", name := "m", host := "h", participants := [],
        max_size := 2, status := "active", created_at := 0 } 125
      (by decide) (by decide)).1⟩

/-! ### The unhashable-Participant crash in join_room (claims C1, C8, C9, C4) -/

/-- C1 (evaluation at the failing input): on a fresh capacity-1 room with no
participants, the very first join_room call does not return True — it
propagates the TypeError raised when the unhashable Participant dataclass is
added to the in-memory set — while a join on an unknown room id still
returns False as the claim says. -/
theorem claim_C1_first_join_crashes :
    (join_room "r1" "carol" "p1" 1
        (create_room "Standup" "alice" 1 "r1" 0 MeetServer.init).2).1 =
      PyOutcome.exn ∧
    (join_room "r1" "carol" "p1" 1
        (create_room "Standup" "alice" 1 "r1" 0 MeetServer.init).2).1 ≠
      PyOutcome.ret true ∧
    (join_room "nope" "carol" "p1" 1
        (create_room "Standup" "alice" 1 "r1" 0 MeetServer.init).2).1 =
      PyOutcome.ret false := by
  refine ⟨by decide, by decide, by decide⟩

/-- C8 (evaluation at the failing input): in a capacity-2 room with spare
capacity, the first join_room call for bob already raises instead of
returning True, and no session record is created; the second call does not
return True either, so the claimed pair of successful duplicate joins never
happens. -/
theorem claim_C8_duplicate_join_crashes :
    (join_room "r1" "bob" "p1" 1
        (create_room "Standup" "alice" 2 "r1" 0 MeetServer.init).2).1 =
      PyOutcome.exn ∧
    (join_room "r1" "bob" "p1" 1
        (create_room "Standup" "alice" 2 "r1" 0 MeetServer.init).2).2.db_participants = [] ∧
    (join_room "r1" "bob" "p2" 2
        (join_room "r1" "bob" "p1" 1
          (create_room "Standup" "alice" 2 "r1" 0 MeetServer.init).2).2).1 ≠
      PyOutcome.ret true := by
  refine ⟨by decide, by decide, by decide⟩

/-- C9 (counterexample): an ended room with spare capacity exists on which
join_room does not return True (it raises), contradicting the claim that the
call returns true and creates a session record. -/
theorem claim_C9_counterexample :
    ∃ r, dictGet "r1" (run [Op.create "m" "h" 3 "r1" 0, Op.endRoom "r1" "" 10]
        MeetServer.init).rooms = some r ∧
      r.status = "ended" ∧ r.participants.length < r.max_size ∧
      (join_room "r1" "bob" "p1" 20 (run [Op.create "m" "h" 3 "r1" 0,
          Op.endRoom "r1" "" 10] MeetServer.init)).1 ≠ PyOutcome.ret true := by
  refine ⟨{ id := "r1", name := "m", host := "h", participants := [],
            max_size := 3, status := "ended", created_at := 0,
            ended_at := some 10 },
    by decide, by decide, by decide, by decide⟩

/-- C9 (amended): join_room indeed never inspects room status — on any room
whose status is already ended but whose participant list is below max_size,
it runs exactly the same path as on an active room: it appends the user to
the ended room's participant list, then raises the TypeError at the set add,
so it returns no value and creates no session record, and it leaves the
in-memory participants map and the durable store untouched. -/
theorem claim_C9_join_ignores_status (s : MeetServer) (rid user pid : String)
    (t : Int) (r : Room) (hr : dictGet rid s.rooms = some r)
    (_hstatus : r.status = "ended")
    (hcap : r.participants.length < r.max_size) :
    (join_room rid user pid t s).1 = PyOutcome.exn ∧
    dictGet rid (join_room rid user pid t s).2.rooms =
      some (appendUser user r) ∧
    (join_room rid user pid t s).2.db_participants = s.db_participants ∧
    (join_room rid user pid t s).2.participants = s.participants := by
  rcases join_room_cases rid user pid t s with ⟨hn, _⟩ | ⟨room, hro, hfull, _⟩ |
    ⟨room, hro, hcap', heq⟩
  · simp [hr] at hn
  · rw [hr] at hro
    cases Option.some.inj hro
    omega
  · rw [hr] at hro
    cases Option.some.inj hro
    refine ⟨by simp [heq], ?_, by simp [heq], by simp [heq]⟩
    rw [heq]
    simp [dictGet_dictUpdate_self, hr]

/-- Witness for the amended C9 at a concrete ended room. -/
theorem claim_C9_join_ignores_status_witness :
    (join_room "r1" "bob" "p1" 20 (run [Op.create "m" "h" 3 "r1" 0,
        Op.endRoom "r1" "" 10] MeetServer.init)).1 = PyOutcome.exn :=
  (claim_C9_join_ignores_status
    (run [Op.create "m" "h" 3 "r1" 0, Op.endRoom "r1" "" 10] MeetServer.init)
    "r1" "bob" "p1" 20
    { id := "r1", name := "m", host := "h", participants := [], max_size := 3,
      status := "ended", created_at := 0, ended_at := some 10 }
    (by decide) (by decide) (by decide)).1

/-- No operation ever stores a Participant object: create_room binds an empty
set, join_room raises before its set add mutates anything, and toggle_media
can only rewrite a binding when it found a matching object.  So every value
of the in-memory participants map stays empty. -/
theorem participants_all_empty_applyOp (op : Op) (s : MeetServer)
    (h : ∀ kr ∈ s.participants, kr.2 = ([] : List Participant)) :
    ∀ kr ∈ (applyOp op s).participants, kr.2 = ([] : List Participant) := by
  cases op with
  | create name host max_size rid t =>
    intro kr hkr
    obtain ⟨k, ps⟩ := kr
    have hkr' : (k, ps) ∈ dictInsert rid ([] : List Participant)
        s.participants := hkr
    rcases mem_dictInsert hkr' with ⟨hk, hps⟩ | hmem
    · exact hps
    · exact h (k, ps) hmem
  | join rid user pid t =>
    have hsame : (applyOp (Op.join rid user pid t) s).participants =
        s.participants := by
      rcases join_room_cases rid user pid t s with ⟨_, heq⟩ | ⟨room, _, _, heq⟩ |
        ⟨room, _, _, heq⟩ <;> simp [applyOp, heq]
    intro kr hkr
    exact h kr (hsame ▸ hkr)
  | leave rid user t =>
    have hsame : (applyOp (Op.leave rid user t) s).participants =
        s.participants := by
      rcases leave_room_cases rid user t s with ⟨_, heq⟩ | ⟨room, _, _, heq⟩ |
        ⟨room, _, _, heq⟩ <;> simp [applyOp, heq]
    intro kr hkr
    exact h kr (hsame ▸ hkr)
  | toggle rid user camera mic =>
    rcases toggle_media_cases rid user camera mic s with heq | ⟨ps', _, htf, heq⟩
    · have hsame : (applyOp (Op.toggle rid user camera mic) s).participants =
          s.participants := by simp [applyOp, heq]
      intro kr hkr
      exact h kr (hsame ▸ hkr)
    · exfalso
      cases hget : dictGet rid s.participants with
      | none =>
        rw [hget] at htf
        simp [toggleFirst] at htf
      | some ps0 =>
        have hps0 : ps0 = [] := h (rid, ps0) (dictGet_mem hget)
        rw [hget, hps0] at htf
        simp [toggleFirst] at htf
  | endRoom rid url t =>
    have hsame : (applyOp (Op.endRoom rid url t) s).participants =
        s.participants := by
      rcases end_room_cases rid url t s with ⟨_, heq⟩ | ⟨_, heq⟩ <;>
        simp [applyOp, heq]
    intro kr hkr
    exact h kr (hsame ▸ hkr)

theorem participants_all_empty_run (ops : List Op) :
    ∀ s : MeetServer, (∀ kr ∈ s.participants, kr.2 = ([] : List Participant)) →
      ∀ kr ∈ (run ops s).participants, kr.2 = ([] : List Participant) := by
  induction ops with
  | nil => exact fun s h => h
  | cons op rest ih => exact fun s h => ih _ (participants_all_empty_applyOp op s h)

/-- C4 (code bug): in every state the server can actually reach, toggle_media
returns False — including for a user who is currently present in the room's
participant list (the concrete second conjunct): the in-memory participants
set that toggle_media scans can never hold a Participant object, because
join_room raises the unhashable-dataclass TypeError before its set add takes
effect. -/
theorem claim_C4_toggle_never_succeeds :
    (∀ (ops : List Op) (rid user : String) (camera mic : Option Bool),
      (toggle_media rid user camera mic (run ops MeetServer.init)).1 = false) ∧
    (∃ r, dictGet "r1" (run [Op.create "Standup" "alice" 2 "r1" 0,
          Op.join "r1" "bob" "p1" 1] MeetServer.init).rooms = some r ∧
       "bob" ∈ r.participants ∧
       toggle_media "r1" "bob" (some false) none
           (run [Op.create "Standup" "alice" 2 "r1" 0,
             Op.join "r1" "bob" "p1" 1] MeetServer.init) =
         (false,
          run [Op.create "Standup" "alice" 2 "r1" 0, Op.join "r1" "bob" "p1" 1]
            MeetServer.init)) := by
  constructor
  · intro ops rid user camera mic
    have hempty := participants_all_empty_run ops MeetServer.init
      (by intro kr hkr; simp [MeetServer.init] at hkr)
    rcases toggle_media_cases rid user camera mic (run ops MeetServer.init) with
      heq | ⟨ps', _, htf, heq⟩
    · simp [heq]
    · exfalso
      cases hget : dictGet rid (run ops MeetServer.init).participants with
      | none =>
        rw [hget] at htf
        simp [toggleFirst] at htf
      | some ps0 =>
        have hps0 : ps0 = [] := hempty (rid, ps0) (dictGet_mem hget)
        rw [hget, hps0] at htf
        simp [toggleFirst] at htf
  · refine ⟨{ id := "r1", name := "Standup", host := "alice",
              participants := ["bob"], max_size := 2, status := "active",
              created_at := 0 }, by decide, by decide, by decide⟩

/-! ### leave_room (claim C5) -/

theorem forall₂_map_self {α β : Type} (f : α → β) (R : α → β → Prop)
    (h : ∀ x, R x (f x)) : ∀ l : List α, List.Forall₂ R l (l.map f) := by
  intro l
  induction l with
  | nil => exact List.Forall₂.nil
  | cons x xs ih => exact List.Forall₂.cons (h x) ih

/-- C5: leave_room returns False when the room id is unknown or the user does
not occur in the room's participant list; on success it returns True, the
room's list loses exactly its first occurrence of the user (the decomposition
keeps every later duplicate), and, row by row, every open session row of the
durable participants table matching the room and user gets the leave time
stamped while every other row is untouched. -/
theorem claim_C5_leave_room (s : MeetServer) (rid user : String) (t : Int) :
    (dictGet rid s.rooms = none → (leave_room rid user t s).1 = false) ∧
    (∀ r, dictGet rid s.rooms = some r → user ∉ r.participants →
       (leave_room rid user t s).1 = false) ∧
    (∀ r, dictGet rid s.rooms = some r → user ∈ r.participants →
       (leave_room rid user t s).1 = true ∧
       (∃ pre post, r.participants = pre ++ user :: post ∧ user ∉ pre ∧
          dictGet rid (leave_room rid user t s).2.rooms =
            some { r with participants := pre ++ post }) ∧
       List.Forall₂ (fun p q =>
           (p.room_id = rid ∧ p.user = user ∧ p.left_at = none →
              q = { p with left_at := some t }) ∧
           (¬(p.room_id = rid ∧ p.user = user ∧ p.left_at = none) → q = p))
         s.db_participants (leave_room rid user t s).2.db_participants) := by
  refine ⟨?_, ?_, ?_⟩
  · intro hn
    rcases leave_room_cases rid user t s with ⟨_, heq⟩ | ⟨room, hro, _, heq⟩ |
      ⟨room, hro, _, heq⟩
    · simp [heq]
    · simp [heq]
    · rw [hn] at hro
      cases hro
  · intro r hr hnm
    rcases leave_room_cases rid user t s with ⟨hn, heq⟩ | ⟨room, hro, _, heq⟩ |
      ⟨room, hro, hm, heq⟩
    · simp [heq]
    · simp [heq]
    · rw [hr] at hro
      cases Option.some.inj hro
      exact absurd hm hnm
  · intro r hr hm
    rcases leave_room_cases rid user t s with ⟨hn, heq⟩ | ⟨room, hro, hnm, heq⟩ |
      ⟨room, hro, _, heq⟩
    · rw [hr] at hn
      cases hn
    · rw [hr] at hro
      cases Option.some.inj hro
      exact absurd hm hnm
    · rw [hr] at hro
      cases Option.some.inj hro
      obtain ⟨pre, post, hdec, hpre, hrem⟩ := removeFirst_decomp hm
      refine ⟨by simp [heq], ⟨pre, post, hdec, hpre, ?_⟩, ?_⟩
      · rw [heq]
        simp only [dictGet_dictUpdate_self, hr, Option.map_some']
        rw [show dropUser user r = { r with participants := pre ++ post } from ?_]
        · unfold dropUser
          rw [hrem]
      · rw [heq]
        refine forall₂_map_self (stampRow rid user t) _ ?_ s.db_participants
        intro p
        constructor
        · intro hc
          simp [stampRow, hc]
        · intro hc
          simp [stampRow, hc]

/-- Witness for C5 on a hand-built state whose room lists bob twice and whose
session table has one open matching row: the leave succeeds. -/
theorem claim_C5_leave_room_witness :
    (leave_room "r1" "bob" 5
      { rooms := [("r1",
          { id := "r1", name := "m", host := "h",
            participants := ["ann", "bob", "bob"], max_size := 5,
            status := "active", created_at := 0 })],
        participants := [("r1", [])],
        db_rooms := [],
        db_participants :=
          [{ id := "s1", room_id := "r1", user := "bob", joined_at := 1,
             left_at := none, camera_on := true, mic_on := true },
           { id := "s2", room_id := "r1", user := "ann", joined_at := 1,
             left_at := none, camera_on := true, mic_on := true }] }).1 =
      true :=
  ((claim_C5_leave_room
      { rooms := [("r1",
          { id := "r1", name := "m", host := "h",
            participants := ["ann", "bob", "bob"], max_size := 5,
            status := "active", created_at := 0 })],
        participants := [("r1", [])],
        db_rooms := [],
        db_participants :=
          [{ id := "s1", room_id := "r1", user := "bob", joined_at := 1,
             left_at := none, camera_on := true, mic_on := true },
           { id := "s2", room_id := "r1", user := "ann", joined_at := 1,
             left_at := none, camera_on := true, mic_on := true }] }
      "r1" "bob" 5).2.2
    { id := "r1", name := "m", host := "h",
      participants := ["ann", "bob", "bob"], max_size := 5,
      status := "active", created_at := 0 }
    (by decide) (by decide)).1

/-! ### room_stats join_events accounting (claim C6) -/

theorem stampRow_room_id (rid' user : String) (t : Int) (p : SessionRow) :
    (stampRow rid' user t p).room_id = p.room_id := by
  unfold stampRow
  by_cases hc : p.room_id = rid' ∧ p.user = user ∧ p.left_at = none <;>
    simp [hc]

theorem filter_room_map_stampRow (rid rid' user : String) (t : Int) :
    ∀ l : List SessionRow,
      ((l.map (stampRow rid' user t)).filter fun p =>
        p.room_id = rid).length =
      (l.filter fun p => p.room_id = rid).length := by
  intro l
  induction l with
  | nil => simp
  | cons p ps ih =>
    by_cases hp : p.room_id = rid
    · simp [List.filter_cons, stampRow_room_id, hp, ih]
    · simp [List.filter_cons, stampRow_room_id, hp, ih]

theorem join_room_never_ret_true (rid user pid : String) (t : Int)
    (s : MeetServer) : (join_room rid user pid t s).1 ≠ PyOutcome.ret true := by
  rcases join_room_cases rid user pid t s with ⟨_, heq⟩ | ⟨room, _, _, heq⟩ |
    ⟨room, _, _, heq⟩ <;> simp [heq]

theorem dbJoinCount_applyOp (rid : String) (op : Op) (s : MeetServer) :
    dbJoinCount rid (applyOp op s) = dbJoinCount rid s + joinSucc op s rid := by
  cases op with
  | create name host max_size rid' t =>
    simp [applyOp, create_room, dbJoinCount, joinSucc]
  | join rid' user pid t =>
    have hne := join_room_never_ret_true rid' user pid t s
    have hdb : (applyOp (Op.join rid' user pid t) s).db_participants =
        s.db_participants := by
      rcases join_room_cases rid' user pid t s with ⟨_, heq⟩ | ⟨room, _, _, heq⟩ |
        ⟨room, _, _, heq⟩ <;> simp [applyOp, heq]
    simp [dbJoinCount, hdb, hne, joinSucc]
  | leave rid' user t =>
    rcases leave_room_cases rid' user t s with ⟨_, heq⟩ | ⟨room, _, _, heq⟩ |
      ⟨room, _, _, heq⟩
    · simp [applyOp, heq, dbJoinCount, joinSucc]
    · simp [applyOp, heq, dbJoinCount, joinSucc]
    · simp [applyOp, heq, dbJoinCount, joinSucc, filter_room_map_stampRow]
  | toggle rid' user camera mic =>
    rcases toggle_media_cases rid' user camera mic s with heq | ⟨ps', _, _, heq⟩ <;>
      simp [applyOp, heq, dbJoinCount, joinSucc]
  | endRoom rid' url t =>
    rcases end_room_cases rid' url t s with ⟨_, heq⟩ | ⟨_, heq⟩ <;>
      simp [applyOp, heq, dbJoinCount, joinSucc]

theorem dbJoinCount_run (rid : String) :
    ∀ (ops : List Op) (s : MeetServer),
      dbJoinCount rid (run ops s) =
        dbJoinCount rid s + succJoinsFrom rid ops s := by
  intro ops
  induction ops with
  | nil =>
    intro s
    simp [run, succJoinsFrom]
  | cons op rest ih =>
    intro s
    have hstep := dbJoinCount_applyOp rid op s
    have htail : dbJoinCount rid (run rest (applyOp op s)) =
        dbJoinCount rid (applyOp op s) +
          succJoinsFrom rid rest (applyOp op s) := ih (applyOp op s)
    show dbJoinCount rid (run rest (applyOp op s)) =
      dbJoinCount rid s + succJoinsFrom rid (op :: rest) s
    rw [htail, hstep]
    show _ = dbJoinCount rid s +
      (joinSucc op s rid + succJoinsFrom rid rest (applyOp op s))
    omega

/-- C6: for every op sequence from a fresh server and every room, the
join_events field that room_stats reports equals the number of join_room
calls in the sequence that targeted that room and returned True.  (In this
code that number is necessarily zero on both sides — join_room never returns
True, see C1 — but the equation is proved for all sequences from the row
accounting itself: each successful join would add exactly one session row,
and no other operation adds or removes rows for the room.) -/
theorem claim_C6_join_events (ops : List Op) (rid : String)
    (st : RoomStatsView)
    (h : room_stats rid (run ops MeetServer.init) = some st) :
    st.join_events = succJoinsFrom rid ops MeetServer.init := by
  cases hro : dictGet rid (run ops MeetServer.init).rooms with
  | none =>
    unfold room_stats at h
    rw [hro] at h
    cases h
  | some room =>
    unfold room_stats at h
    rw [hro] at h
    have hst := Option.some.inj h
    have hje : st.join_events = dbJoinCount rid (run ops MeetServer.init) := by
      rw [← hst]
      simp [dbJoinCount]
    rw [hje, dbJoinCount_run rid ops MeetServer.init]
    simp [dbJoinCount, MeetServer.init]

/-- Witness for C6: create a room, attempt one join (raises after appending
bob) and one leave; room_stats reports peak 1 and zero join events, matching
the zero successful joins of the sequence. -/
theorem claim_C6_join_events_witness :
    ({ peak_participants := 1, duration_min := 0, join_events := 0 } :
        RoomStatsView).join_events =
      succJoinsFrom "r1"
        [Op.create "m" "h" 2 "r1" 0, Op.join "r1" "bob" "p1" 1,
         Op.leave "r1" "ann" 2] MeetServer.init :=
  claim_C6_join_events
    [Op.create "m" "h" 2 "r1" 0, Op.join "r1" "bob" "p1" 1,
     Op.leave "r1" "ann" 2] "r1"
    { peak_participants := 1, duration_min := 0, join_events := 0 }
    (by decide)

/-! ### get_user_history (claim C3) -/

theorem roomsWF_dictGet {s : MeetServer} (hwf : RoomsWF s) :
    ∀ room ∈ s.rooms.map Prod.snd, dictGet room.id s.rooms = some room := by
  intro room hroom
  rcases List.mem_map.mp hroom with ⟨kr, hkr, hsnd⟩
  obtain ⟨k, r⟩ := kr
  have hre : r = room := hsnd
  subst hre
  have hid : r.id = k := hwf.1 (k, r) hkr
  rw [hid]
  exact nodupKeys_mem_dictGet hwf.2 hkr

theorem filterMap_snapshot (s : MeetServer) (user : String) :
    ∀ l : List Room, (∀ room ∈ l, dictGet room.id s.rooms = some room) →
      (l.filterMap fun room =>
        if user ∈ room.participants ∧ room.status = "ended" then
          get_room room.id s
        else none) =
      (l.filter fun room =>
        decide (user ∈ room.participants ∧ room.status = "ended")).map
        roomView := by
  intro l
  induction l with
  | nil => intro _; simp
  | cons room rest ih =>
    intro hall
    have hr := hall room (List.mem_cons_self room rest)
    have hrest : ∀ x ∈ rest, dictGet x.id s.rooms = some x :=
      fun x hx => hall x (List.mem_cons_of_mem _ hx)
    by_cases hc : user ∈ room.participants ∧ room.status = "ended"
    · have hfr : (if user ∈ room.participants ∧ room.status = "ended" then
          get_room room.id s else none) = some (roomView room) := by
        rw [if_pos hc]
        unfold get_room
        rw [hr]
        rfl
      rw [List.filterMap_cons, hfr, ih hrest]
      simp [List.filter_cons, hc]
    · have hfr : (if user ∈ room.participants ∧ room.status = "ended" then
          get_room room.id s else none) = none := if_neg hc
      rw [List.filterMap_cons, hfr, ih hrest]
      simp [List.filter_cons, hc]

theorem get_user_history_eq (s : MeetServer) (user : String) (n : Nat)
    (hwf : RoomsWF s) :
    get_user_history user n s =
      ((((s.rooms.map Prod.snd).filter fun room =>
          decide (user ∈ room.participants ∧ room.status = "ended")).map
         roomView).mergeSort fun a b =>
           decide (b.created_at ≤ a.created_at)).take n := by
  unfold get_user_history
  rw [filterMap_snapshot s user (s.rooms.map Prod.snd) (roomsWF_dictGet hwf)]

theorem mem_history {s : MeetServer} {user : String} {n : Nat}
    (hwf : RoomsWF s) {v : RoomView} (hv : v ∈ get_user_history user n s) :
    ∃ kr, kr ∈ s.rooms ∧ v = roomView kr.2 ∧ user ∈ kr.2.participants ∧
      kr.2.status = "ended" := by
  rw [get_user_history_eq s user n hwf] at hv
  have hv1 := List.mem_of_mem_take hv
  have hv2 := (List.mergeSort_perm _ _).mem_iff.mp hv1
  rcases List.mem_map.mp hv2 with ⟨room, hroom, hview⟩
  rcases List.mem_filter.mp hroom with ⟨hmem, hcond⟩
  rcases List.mem_map.mp hmem with ⟨kr, hkr, hsnd⟩
  have hcond' : user ∈ room.participants ∧ room.status = "ended" := by
    simpa using hcond
  refine ⟨kr, hkr, ?_, ?_, ?_⟩
  · rw [← hview, hsnd]
  · rw [hsnd]
    exact hcond'.1
  · rw [hsnd]
    exact hcond'.2

theorem roomsWF_update {l : List (String × Room)} (k : String) (f : Room → Room)
    (hwf1 : ∀ kr ∈ l, kr.2.id = kr.1) (hwf2 : (l.map Prod.fst).Nodup)
    (hf : ∀ r : Room, (f r).id = r.id) :
    (∀ kr ∈ dictUpdate k f l, kr.2.id = kr.1) ∧
      ((dictUpdate k f l).map Prod.fst).Nodup := by
  constructor
  · intro kr hkr
    obtain ⟨a, b⟩ := kr
    rcases mem_dictUpdate hkr with hmem | ⟨hk, v₀, hget, hv⟩
    · exact hwf1 (a, b) hmem
    · subst hk
      subst hv
      show (f v₀).id = a
      rw [hf]
      exact hwf1 (a, v₀) (dictGet_mem hget)
  · rw [keys_dictUpdate]
    exact hwf2

/-- C3: get_user_history returns exactly the snapshots of the rooms whose
status is ended and whose in-memory participant list still contains the
user, sorted by creation time descending and truncated to at most n entries;
consequently a room from whose list the user's only entry was removed by a
successful leave_room before end_room never appears in that user's history,
whatever the bound. -/
theorem claim_C3_user_history (s : MeetServer) (user : String) (n : Nat)
    (hwf : RoomsWF s) :
    (∃ l : List RoomView,
       l.Perm (((s.rooms.map Prod.snd).filter fun room =>
           decide (user ∈ room.participants ∧ room.status = "ended")).map
          roomView) ∧
       List.Pairwise (fun a b : RoomView => b.created_at ≤ a.created_at) l ∧
       get_user_history user n s = l.take n) ∧
    (get_user_history user n s).length ≤ n ∧
    (∀ v ∈ get_user_history user n s, v.status = "ended" ∧
      user ∈ v.participants) ∧
    (∀ (rid url : String) (t₁ t₂ : Int) (r : Room),
       dictGet rid s.rooms = some r → r.participants.count user = 1 →
       (leave_room rid user t₁ s).1 = true ∧
       ∀ v ∈ get_user_history user n
           (end_room rid url t₂ (leave_room rid user t₁ s).2).2, v.id ≠ rid) := by
  refine ⟨?_, ?_, ?_, ?_⟩
  · have htrans : ∀ a b c : RoomView,
        decide (b.created_at ≤ a.created_at) = true →
        decide (c.created_at ≤ b.created_at) = true →
        decide (c.created_at ≤ a.created_at) = true := by
      intro a b c hab hbc
      simp only [decide_eq_true_eq] at hab hbc ⊢
      omega
    have htotal : ∀ a b : RoomView,
        (decide (b.created_at ≤ a.created_at) ||
          decide (a.created_at ≤ b.created_at)) = true := by
      intro a b
      simp only [Bool.or_eq_true, decide_eq_true_eq]
      omega
    have hp := @List.sorted_mergeSort RoomView
      (fun a b : RoomView => decide (b.created_at ≤ a.created_at))
      htrans htotal
      (((s.rooms.map Prod.snd).filter fun room =>
        decide (user ∈ room.participants ∧ room.status = "ended")).map
        roomView)
    refine ⟨(((s.rooms.map Prod.snd).filter fun room =>
        decide (user ∈ room.participants ∧ room.status = "ended")).map
          roomView).mergeSort (fun a b => decide (b.created_at ≤ a.created_at)),
      List.mergeSort_perm _ _, ?_, get_user_history_eq s user n hwf⟩
    exact hp.imp fun h => of_decide_eq_true h
  · rw [get_user_history_eq s user n hwf]
    exact List.length_take_le n _
  · intro v hv
    rcases mem_history hwf hv with ⟨kr, hkr, hview, hu, hend⟩
    subst hview
    constructor
    · simpa [roomView] using hend
    · simpa [roomView] using hu
  · intro rid url t₁ t₂ r hro hcount
    have humem : user ∈ r.participants :=
      List.count_pos_iff.mp (by omega)
    rcases leave_room_cases rid user t₁ s with ⟨hn, _⟩ | ⟨room, hro', hnm, _⟩ |
      ⟨room, hro', hm, heq⟩
    · rw [hro] at hn
      cases hn
    · rw [hro] at hro'
      cases Option.some.inj hro'
      exact absurd humem hnm
    · rw [hro] at hro'
      cases Option.some.inj hro'
      refine ⟨by simp [heq], ?_⟩
      rcases end_room_cases rid url t₂ (leave_room rid user t₁ s).2 with
        ⟨hn2, _⟩ | ⟨_, heq2⟩
      · rw [heq] at hn2
        simp [dictGet_dictUpdate_self, hro] at hn2
      · have hrooms₂ : (end_room rid url t₂
            (leave_room rid user t₁ s).2).2.rooms =
            dictUpdate rid (endUpd url t₂)
              (dictUpdate rid (dropUser user) s.rooms) := by
          rw [heq2]
          simp [heq]
        have hwf1 := roomsWF_update rid (dropUser user) hwf.1 hwf.2
          (fun r => rfl)
        have hwf2 := roomsWF_update rid (endUpd url t₂) hwf1.1 hwf1.2
          (fun r => rfl)
        have hwfs₂ : RoomsWF (end_room rid url t₂
            (leave_room rid user t₁ s).2).2 := by
          unfold RoomsWF
          rw [hrooms₂]
          exact hwf2
        intro v hv hvid
        rcases mem_history hwfs₂ hv with ⟨kr, hkr, hview, hu, _⟩
        obtain ⟨k, room₂⟩ := kr
        have hid : room₂.id = k := hwfs₂.1 (k, room₂) hkr
        have hvid' : v.id = k := by
          rw [hview]
          simpa [roomView] using hid
        have hk : k = rid := by
          rw [← hvid', hvid]
        rw [hk] at hkr
        have hget₂ : dictGet rid (end_room rid url t₂
            (leave_room rid user t₁ s).2).2.rooms =
            some (endUpd url t₂ (dropUser user r)) := by
          rw [hrooms₂]
          simp [dictGet_dictUpdate_self, hro]
        have hnd : ((end_room rid url t₂
            (leave_room rid user t₁ s).2).2.rooms.map Prod.fst).Nodup := by
          rw [hrooms₂]
          exact hwf2.2
        have hg := nodupKeys_mem_dictGet hnd hkr
        rw [hget₂] at hg
        have hroom₂ : room₂ = endUpd url t₂ (dropUser user r) :=
          (Option.some.inj hg).symm
        have hu' : user ∈ removeFirst user r.participants := by
          rw [hroom₂] at hu
          simpa [endUpd, dropUser] using hu
        exact not_mem_removeFirst_of_count_le_one humem (by omega) hu'

/-- Witness for C3 on a hand-built well-formed server with two ended rooms
and one active room: the history bound holds at the concrete input. -/
theorem claim_C3_user_history_witness :
    (get_user_history "bob" 10
      { rooms :=
          [("a", { id := "a", name := "one", host := "h",
                   participants := ["bob"], max_size := 4, status := "ended",
                   created_at := 10, ended_at := some 20 }),
           ("b", { id := "b", name := "two", host := "h",
                   participants := ["ann", "bob"], max_size := 4,
                   status := "ended", created_at := 30, ended_at := some 40 }),
           ("c", { id := "c", name := "three", host := "h",
                   participants := ["bob"], max_size := 4, status := "active",
                   created_at := 50 })],
        participants := [],
        db_rooms := [],
        db_participants := [] }).length ≤ 10 :=
  (claim_C3_user_history
    { rooms :=
        [("a", { id := "a", name := "one", host := "h",
                 participants := ["bob"], max_size := 4, status := "ended",
                 created_at := 10, ended_at := some 20 }),
         ("b", { id := "b", name := "two", host := "h",
                 participants := ["ann", "bob"], max_size := 4,
                 status := "ended", created_at := 30, ended_at := some 40 }),
         ("c", { id := "c", name := "three", host := "h",
                 participants := ["bob"], max_size := 4, status := "active",
                 created_at := 50 })],
      participants := [],
      db_rooms := [],
      db_participants := [] } "bob" 10 ⟨by decide, by decide⟩).2.1
